import Mathlib

/-!
Verification of the swarm-together core runtime (src/src-tauri/src).

Shallow embedding of the memory subsystem (RingBuffer, Blackboard), the
per-agent Mailbox priority queue, the Orchestrator scheduling loop with
retry, the connector retry-with-backoff loop and the connector stdout
line parser.  Machine integers (u32/u64/usize) are modelled as Nat; the
reachable-state invariants of the code guarantee the subtractions that
occur are exact, which the lemmas below establish.  Wall-clock time and
the outcomes of external execution are supplied by explicit oracles.
-/

namespace SwarmSpec

/-! ## Memory: ring buffer (src/src-tauri/src/memory/ring_buffer.rs, types.rs) -/
/-- `MemoryEntry` from memory/types.rs; only the fields the ring buffer
reads (`content`, `token_count`) are carried. -/
structure MemoryEntry where
  content : String
  token_count : Nat
deriving Repr, DecidableEq

/-- `RingBuffer` together with its `MemoryStats` (memory/types.rs):
the VecDeque of entries plus `total_entries`, `total_tokens`,
`summarization_count`, `eviction_count` and the token capacity. -/
structure RingBuffer where
  entries : List MemoryEntry
  total_tokens : Nat
  total_entries : Nat
  eviction_count : Nat
  summarization_count : Nat
  capacity_tokens : Nat
deriving Repr, DecidableEq

/-- `RingBuffer::new`. -/
def RingBuffer.new (capacity_tokens : Nat) : RingBuffer :=
  { entries := [], total_tokens := 0, total_entries := 0,
    eviction_count := 0, summarization_count := 0,
    capacity_tokens := capacity_tokens }

/-- Sum of the declared token counts of a list of entries. -/
def sumTokens (l : List MemoryEntry) : Nat :=
  (l.map MemoryEntry.token_count).sum

/-- The eviction loop inside `RingBuffer::push`: while
`total_tokens > capacity`, pop the oldest entry, subtract its token
count and increment `eviction_count`.  (On an empty deque the Rust loop
breaks, returning the state unchanged, which coincides with the
guard-false branch.)  Returns (entries, total_tokens, eviction_count). -/
def evictOldest (cap : Nat) : List MemoryEntry → Nat → Nat → List MemoryEntry × Nat × Nat
  | [], total, ev => ([], total, ev)
  | e :: rest, total, ev =>
    if cap < total then evictOldest cap rest (total - e.token_count) (ev + 1)
    else (e :: rest, total, ev)

/-- `RingBuffer::push`: append the entry, add its tokens, then evict
oldest entries while over capacity; `total_entries` is set to the final
container length. -/
def RingBuffer.push (b : RingBuffer) (e : MemoryEntry) : RingBuffer :=
  let r := evictOldest b.capacity_tokens (b.entries ++ [e])
      (b.total_tokens + e.token_count) b.eviction_count
  { b with entries := r.1, total_tokens := r.2.1,
           eviction_count := r.2.2, total_entries := r.1.length }

/-- `RingBuffer::clear`. -/
def RingBuffer.clear (b : RingBuffer) : RingBuffer :=
  { b with entries := [], total_tokens := 0, total_entries := 0 }

/-- `RingBuffer::summarize`: replace all entries by the single summary
entry, set `total_tokens := summary_tokens`, `total_entries := 1` and
bump `summarization_count`.  No capacity check is performed. -/
def RingBuffer.summarize (b : RingBuffer) (summary : String) (summary_tokens : Nat) : RingBuffer :=
  { b with entries := [{ content := summary, token_count := summary_tokens }],
           total_tokens := summary_tokens, total_entries := 1,
           summarization_count := b.summarization_count + 1 }

/-- Representation invariant maintained by the ring buffer's stats:
`total_tokens` is the sum of the stored entries' token counts and
`total_entries` is the container length. -/
def RingBuffer.Wf (b : RingBuffer) : Prop :=
  b.total_tokens = sumTokens b.entries ∧ b.total_entries = b.entries.length

instance (b : RingBuffer) : Decidable b.Wf := by
  unfold RingBuffer.Wf; infer_instance

/-! ## Memory: blackboard (src/src-tauri/src/memory/blackboard.rs, types.rs) -/
/-- `BlackboardEntry` from memory/types.rs; timestamps are Nats supplied
by a `now` parameter in place of `SystemTime::now()`.  The `id`,
`embedding` and `created_at` fields play no part in the claims and are
omitted. -/
structure BlackboardEntry where
  key : String
  value : String
  expires_at : Option Nat
  last_accessed : Nat
  access_count : Nat
deriving Repr, DecidableEq

/-- `BlackboardEntry::is_expired`: true iff an expiration is set and the
current time is strictly past it. -/
def BlackboardEntry.isExpired (e : BlackboardEntry) (now : Nat) : Bool :=
  match e.expires_at with
  | some t => t < now
  | none => false

/-- `BlackboardEntry::touch`: update last-access time, bump counter. -/
def BlackboardEntry.touch (e : BlackboardEntry) (now : Nat) : BlackboardEntry :=
  { e with last_accessed := now, access_count := e.access_count + 1 }

/-- `Blackboard` with the stats fields the claims mention.  The HashMap
is modelled as a key-unique association list (iteration order is a
determinization of the HashMap's arbitrary order). -/
structure Blackboard where
  entries : List BlackboardEntry
  max_entries : Nat
  total_entries : Nat
  expired_entries : Nat
  eviction_count : Nat
deriving Repr, DecidableEq

/-- `Blackboard::new`. -/
def Blackboard.new (max_entries : Nat) : Blackboard :=
  { entries := [], max_entries := max_entries, total_entries := 0,
    expired_entries := 0, eviction_count := 0 }

/-- Membership test for `entries.contains_key(&entry.key)`. -/
def hasKey (l : List BlackboardEntry) (k : String) : Bool :=
  l.any (fun x => x.key == k)

/-- `min_by_key(|(_, e)| e.last_accessed)`: first entry (in iteration
order) with the minimal last-access time, as Rust's `min_by_key`
returns the first of several minima. -/
def minByLastAccessed : List BlackboardEntry → Option BlackboardEntry
  | [] => none
  | e :: rest =>
    match minByLastAccessed rest with
    | none => some e
    | some m => if m.last_accessed < e.last_accessed then some m else some e

/-- `HashMap::remove(&lru_key)`: drop the (unique-keyed) entry with the
given key. -/
def removeKey (k : String) : List BlackboardEntry → List BlackboardEntry
  | [] => []
  | e :: rest => if e.key == k then rest else e :: removeKey k rest

/-- `Blackboard::evict_lru`: remove the entry with the smallest
`last_accessed`, increment `eviction_count`; then refresh
`total_entries`. -/
def Blackboard.evictLru (bb : Blackboard) : Blackboard :=
  match minByLastAccessed bb.entries with
  | none => { bb with total_entries := bb.entries.length }
  | some m =>
    let entries := removeKey m.key bb.entries
    { bb with entries := entries, eviction_count := bb.eviction_count + 1,
              total_entries := entries.length }

/-- `HashMap::insert(key, entry)`: replace in place or add. -/
def insertEntry (e : BlackboardEntry) : List BlackboardEntry → List BlackboardEntry
  | [] => [e]
  | x :: rest => if x.key == e.key then e :: rest else x :: insertEntry e rest

/-- `Blackboard::cleanup_expired`: drop every expired entry, counting
them into `expired_entries`, then refresh `total_entries`. -/
def Blackboard.cleanupExpired (bb : Blackboard) (now : Nat) : Blackboard :=
  let kept := bb.entries.filter (fun x => ¬ x.isExpired now)
  { bb with entries := kept,
            expired_entries := bb.expired_entries + (bb.entries.length - kept.length),
            total_entries := kept.length }

/-- `Blackboard::put`: touch the entry, purge expired entries, evict the
LRU entry when the key is new and the store is at capacity, then insert
or replace and refresh `total_entries`. -/
def Blackboard.put (bb : Blackboard) (now : Nat) (entry : BlackboardEntry) : Blackboard :=
  let e := entry.touch now
  let bb1 := bb.cleanupExpired now
  let bb2 :=
    if bb1.max_entries ≤ bb1.entries.length ∧ ¬ hasKey bb1.entries e.key then
      bb1.evictLru
    else bb1
  let entries := insertEntry e bb2.entries
  { bb2 with entries := entries, total_entries := entries.length }

/-! ## Runtime: mailbox (src/src-tauri/src/runtime/mailbox.rs, types.rs) -/
/-- Agent identifiers: opaque values with decidable equality (Uuid in
the source), modelled as Nat. -/
abbrev AgentId := Nat

/-- `MessagePriority` with its numeric ordering Low=0 … Critical=3. -/
inductive MessagePriority
  | Low
  | Normal
  | High
  | Critical
deriving Repr, DecidableEq

/-- The numeric value of a priority (`Low=0, Normal=1, High=2,
Critical=3`); `Ord for PriorityMessage` compares exactly these. -/
def MessagePriority.toNat : MessagePriority → Nat
  | .Low => 0
  | .Normal => 1
  | .High => 2
  | .Critical => 3

/-- `AgentMessage` from runtime/types.rs (id, from, to, content,
priority; timestamp and metadata omitted as no claim reads them). -/
structure AgentMessage where
  id : Nat
  fromAgent : AgentId
  toAgent : AgentId
  content : String
  priority : MessagePriority
deriving Repr, DecidableEq

/-- `Mailbox::push` on the underlying heap contents (a BinaryHeap is a
multiset; we keep the insertion sequence). -/
def Mailbox.push (box : List AgentMessage) (m : AgentMessage) : List AgentMessage :=
  box ++ [m]

/-- `BinaryHeap::pop` keyed on `Ord for PriorityMessage` (priority
only): returns a message of maximal priority and the remaining
contents.  Among equal priorities the heap's choice is unspecified;
this model takes the earliest-inserted of the maxima, a legitimate
refinement. -/
def popMax : List AgentMessage → Option (AgentMessage × List AgentMessage)
  | [] => none
  | m :: rest =>
    match popMax rest with
    | none => some (m, [])
    | some (m', rest') =>
      if m.priority.toNat < m'.priority.toNat then some (m', m :: rest')
      else some (m, rest)

/-! ## Runtime: orchestrator (src/src-tauri/src/runtime/orchestrator.rs,
registry.rs).  The async runtime is sequentialized; wall-clock readings,
external `stop()` signals and the outcomes of `execute_message` attempts
are supplied by oracles so every schedule is covered. -/
/-- `AgentStatus` from runtime/types.rs. -/
inductive AgentStatus
  | Idle
  | Processing
  | Waiting
  | Failed (reason : String)
deriving Repr, DecidableEq

/-- `AgentConfig` (runtime/types.rs): the fields the orchestrator
reads.  Role, connector type and tool policies are never consulted by
the scheduling loop and are omitted. -/
structure AgentConfig where
  name : String
  max_retries : Nat
  timeout_ms : Nat
deriving Repr, DecidableEq

/-- `AgentMetadata`: the registry's mutable per-agent record (creation
time, role and connector copies omitted; the loop reads id and status). -/
structure AgentMetadata where
  id : AgentId
  name : String
  status : AgentStatus
deriving Repr, DecidableEq

/-- `LoopGuard` from orchestrator.rs. -/
structure LoopGuard where
  max_iterations : Nat
  max_messages_per_agent : Nat
  max_execution_time_ms : Nat
deriving Repr, DecidableEq

/-- `LoopGuard::default()`: 100 iterations, 50 messages per agent,
600 000 ms. -/
def LoopGuard.default : LoopGuard :=
  { max_iterations := 100, max_messages_per_agent := 50,
    max_execution_time_ms := 600000 }

/-- `StopReason`: the six variants returned by `Orchestrator::start`. -/
inductive StopReason
  | Completed
  | MaxIterations
  | MaxMessagesPerAgent (agent_id : AgentId) (count : Nat)
  | MaxExecutionTime
  | AgentError (agent_id : AgentId) (error : String)
  | ManualStop
deriving Repr, DecidableEq

/-- `OrchestratorMetrics`. `messages_per_agent` is the HashMap as an
association list. -/
structure OrchMetrics where
  total_iterations : Nat
  total_messages : Nat
  messages_per_agent : List (AgentId × Nat)
  retry_count : Nat
  error_count : Nat
  queue_depth : Nat
deriving Repr, DecidableEq

/-- The all-zero `OrchestratorMetrics::default()`. -/
def OrchMetrics.default : OrchMetrics :=
  { total_iterations := 0, total_messages := 0, messages_per_agent := [],
    retry_count := 0, error_count := 0, queue_depth := 0 }

/-- Combined state of the orchestrator's collaborators: the registry's
two maps, the message bus (mailboxes plus the `total_received`
counter), the metrics, and the `running` flag.  `execCursor` indexes
the oracle deciding each `execute_message` attempt's outcome. -/
structure OrchState where
  agents : List AgentMetadata
  configs : List (AgentId × AgentConfig)
  mailboxes : List (AgentId × List AgentMessage)
  total_received : Nat
  metrics : OrchMetrics
  running : Bool
  execCursor : Nat
deriving Repr, DecidableEq

/-- Oracles closing over the environment: outcome of the n-th
`execute_message` attempt, whether `stop()` was called before the n-th
iteration's `running` read, and the elapsed milliseconds observed at
the n-th iteration. -/
structure OrchEnv where
  execOk : Nat → Bool
  stopSignal : Nat → Bool
  elapsedMs : Nat → Nat

/-- Association-list lookup (HashMap `get`). -/
def alookup {α : Type} : List (AgentId × α) → AgentId → Option α
  | [], _ => none
  | (k, v) :: rest, id => if k = id then some v else alookup rest id

/-- Association-list update for a key already present (HashMap insert
of an existing key; appends when absent). -/
def aupdate {α : Type} : List (AgentId × α) → AgentId → α → List (AgentId × α)
  | [], id, v => [(id, v)]
  | (k, x) :: rest, id, v =>
    if k = id then (k, v) :: rest else (k, x) :: aupdate rest id v

/-- `metrics.messages_per_agent.entry(agent_id).or_insert(0) += 1`. -/
def bumpCount : List (AgentId × Nat) → AgentId → List (AgentId × Nat)
  | [], id => [(id, 1)]
  | (k, v) :: rest, id =>
    if k = id then (k, v + 1) :: rest else (k, v) :: bumpCount rest id

/-- `AgentRegistry::update_status`: mutate the metadata entry in place
when present. -/
def updateStatus (st : OrchState) (id : AgentId) (s : AgentStatus) : OrchState :=
  { st with agents := st.agents.map (fun a => if a.id = id then { a with status := s } else a) }

/-- `MessageBus::queue_depth`: sum of all mailbox lengths. -/
def queueDepth (st : OrchState) : Nat :=
  (st.mailboxes.map (fun p => p.2.length)).sum

/-- The `execute_with_retry` loop.  The structural argument `d` is the
fuel `max_retries - retries`, sufficient because `retries` grows by one
per failed attempt and the loop exits once `max_retries ≤ retries`;
the `d = 0` fallthrough is unreachable under that invariant and
returns the same terminal error as the exhausted branch.  The stub
`execute_message` fails with "Timeout" exactly when the oracle says so. -/
def retryAux (env : OrchEnv) (maxRetries : Nat) :
    Nat → Nat → OrchState → Except String Unit × OrchState
  | d, retries, st =>
    if env.execOk st.execCursor then
      (Except.ok (), { st with execCursor := st.execCursor + 1 })
    else
      let st := { st with execCursor := st.execCursor + 1 }
      let retries := retries + 1
      if maxRetries ≤ retries then
        (Except.error ("Max retries exceeded: " ++ "Timeout"),
         { st with metrics := { st.metrics with error_count := st.metrics.error_count + 1 } })
      else
        match d with
        | 0 =>
          (Except.error ("Max retries exceeded: " ++ "Timeout"),
           { st with metrics := { st.metrics with error_count := st.metrics.error_count + 1 } })
        | d + 1 =>
          retryAux env maxRetries d retries
            { st with metrics := { st.metrics with retry_count := st.metrics.retry_count + 1 } }

/-- `Orchestrator::execute_with_retry`: the loop entered with
`retries = 0`. -/
def executeWithRetry (env : OrchEnv) (maxRetries : Nat) (st : OrchState) :
    Except String Unit × OrchState :=
  retryAux env maxRetries maxRetries 0 st

/-- The tail of `process_agent_message` after the retry wrapper has
returned `r`: set status Idle on success or Failed on failure, then —
unconditionally, on both paths — `bus.mark_received()` and bump
`messages_per_agent[id]` and `total_messages`. -/
def afterRetry (id : AgentId) (r : Except String Unit × OrchState) :
    Option (Except String Unit) × OrchState :=
  let st := r.2
  let st :=
    match r.1 with
    | .ok _ => updateStatus st id .Idle
    | .error _ => updateStatus st id (.Failed "Processing failed")
  let st := { st with total_received := st.total_received + 1 }
  let st := { st with metrics :=
    { st.metrics with
      messages_per_agent := bumpCount st.metrics.messages_per_agent id,
      total_messages := st.metrics.total_messages + 1 } }
  (some r.1, st)

/-- `Orchestrator::process_agent_message`: pop the mailbox head (skip
the agent when there is no mailbox, no message, or no configuration),
set status Processing, run the retry wrapper, then the `afterRetry`
tail. -/
def processAgentMessage (env : OrchEnv) (st : OrchState) (id : AgentId) :
    Option (Except String Unit) × OrchState :=
  match alookup st.mailboxes id with
  | none => (none, st)
  | some box =>
    match popMax box with
    | none => (none, st)
    | some (_msg, rest) =>
      let st := { st with mailboxes := aupdate st.mailboxes id rest }
      let st := updateStatus st id .Processing
      match alookup st.configs id with
      | none => (none, st)
      | some cfg => afterRetry id (executeWithRetry env cfg.max_retries st)

/-- Outcome of one pass over the agent snapshot: an early return with a
stop reason, or fall-through with the `processed_any` flag. -/
inductive PassOutcome
  | stop (r : StopReason) (st : OrchState)
  | cont (processedAny : Bool) (st : OrchState)
deriving Repr

/-- The `for agent in agents` body of `Orchestrator::start`: check the
per-agent message limit, then process one message; an `Err` from the
retry wrapper stops the loop with `AgentError`. -/
def passAgents (env : OrchEnv) (guard : LoopGuard) :
    List AgentMetadata → Bool → OrchState → PassOutcome
  | [], processedAny, st => .cont processedAny st
  | a :: rest, processedAny, st =>
    let cnt := (alookup st.metrics.messages_per_agent a.id).getD 0
    if guard.max_messages_per_agent ≤ cnt then
      .stop (.MaxMessagesPerAgent a.id cnt) st
    else
      match processAgentMessage env st a.id with
      | (none, st) => passAgents env guard rest processedAny st
      | (some (.ok _), st) => passAgents env guard rest true st
      | (some (.error e), st) => .stop (.AgentError a.id e) st

/-- The `loop` of `Orchestrator::start`, with fuel counting the
remaining loop passes.  Each pass checks `running`, the iteration
limit and the elapsed-time limit, snapshots the agent list, processes
at most one message per agent, records `total_iterations` and
`queue_depth`, increments the iteration counter, and completes when no
message was processed and the queue is empty. -/
def orchLoop (env : OrchEnv) (guard : LoopGuard) :
    Nat → Nat → OrchState → Option (StopReason × OrchState)
  | 0, _, _ => none
  | fuel + 1, iterations, st =>
    let st := if env.stopSignal iterations then { st with running := false } else st
    if st.running = false then some (.ManualStop, st)
    else if guard.max_iterations ≤ iterations then some (.MaxIterations, st)
    else if guard.max_execution_time_ms ≤ env.elapsedMs iterations then
      some (.MaxExecutionTime, st)
    else if st.agents.isEmpty then some (.Completed, st)
    else
      match passAgents env guard st.agents false st with
      | .stop r st => some (r, st)
      | .cont processedAny st =>
        let st := { st with metrics :=
          { st.metrics with total_iterations := iterations, queue_depth := queueDepth st } }
        if processedAny = false ∧ queueDepth st = 0 then some (.Completed, st)
        else orchLoop env guard fuel (iterations + 1) st

/-- `Orchestrator::start`: set `running := true` (unconditionally: the
prior value is never consulted) and enter the loop.  The fuel
`max_iterations + 1` is provably never exhausted
(`orchLoop_isSome`). -/
def Orchestrator.start (env : OrchEnv) (guard : LoopGuard) (st : OrchState) :
    Option (StopReason × OrchState) :=
  orchLoop env guard (guard.max_iterations + 1) 0 { st with running := true }

/-! ## Concrete instances used by the orchestrator claims -/
/-- Oracle for which every execution attempt fails. -/
def c1Env : OrchEnv :=
  { execOk := fun _ => false, stopSignal := fun _ => false, elapsedMs := fun _ => 0 }

/-- Oracle for which every execution attempt succeeds. -/
def c1EnvOk : OrchEnv :=
  { execOk := fun _ => true, stopSignal := fun _ => false, elapsedMs := fun _ => 0 }

/-- One registered agent (id 0) with one Normal-priority queued message
and `max_retries = 1`. -/
def c1St : OrchState :=
  { agents := [{ id := 0, name := "a", status := .Idle }],
    configs := [(0, { name := "a", max_retries := 1, timeout_ms := 1000 })],
    mailboxes := [(0, [{ id := 1, fromAgent := 0, toAgent := 0,
                         content := "test", priority := .Normal }])],
    total_received := 0, metrics := OrchMetrics.default,
    running := false, execCursor := 0 }

/-- Mailbox and message present but no configuration registered for the
agent: the registry row was removed while the mailbox survived. -/
def c9St : OrchState :=
  { agents := [{ id := 7, name := "ghost", status := .Idle }],
    configs := [],
    mailboxes := [(7, [{ id := 2, fromAgent := 7, toAgent := 7,
                         content := "orphan", priority := .High }])],
    total_received := 0, metrics := OrchMetrics.default,
    running := false, execCursor := 0 }

/-- A state whose `running` flag is already true — the observable mark
of a scheduling loop in progress — with one agent and one queued
message. -/
def c8St : OrchState :=
  { agents := [{ id := 3, name := "b", status := .Idle }],
    configs := [(3, { name := "b", max_retries := 3, timeout_ms := 1000 })],
    mailboxes := [(3, [{ id := 5, fromAgent := 3, toAgent := 3,
                         content := "second", priority := .Normal }])],
    total_received := 0, metrics := OrchMetrics.default,
    running := true, execCursor := 0 }

/-- Small loop guard for concrete evaluation. -/
def c8Guard : LoopGuard :=
  { max_iterations := 10, max_messages_per_agent := 50, max_execution_time_ms := 1000 }

/-! ## Claim C5: mailbox priority -/
/-- The S1 scenario's Low-priority message. -/
def s1Low : AgentMessage :=
  { id := 1, fromAgent := 0, toAgent := 9, content := "low", priority := .Low }

/-- The S1 scenario's High-priority message. -/
def s1High : AgentMessage :=
  { id := 2, fromAgent := 0, toAgent := 9, content := "high", priority := .High }

/-- The S1 scenario's Normal-priority message. -/
def s1Normal : AgentMessage :=
  { id := 3, fromAgent := 0, toAgent := 9, content := "normal", priority := .Normal }

/-! ## Connectors: retry with backoff
(src/src-tauri/src/connectors/claude_code.rs lines 58-91; the
`CodexCliConnector::execute` loop in codex_cli.rs lines 99-132 is
textually identical).  `try_execute` outcomes are an oracle giving
`none` for a successful attempt and `some e` for a failure with error
message `e`. -/
/-- `ConnectorHealth` from connectors/types.rs. -/
inductive ConnectorHealth
  | Healthy
  | Degraded (reason : String)
  | Unhealthy (reason : String)
deriving Repr, DecidableEq

/-- The attempt counters of `ConnectorMetrics` (token and timing fields
are not touched by the retry loop). -/
structure ConnectorMetrics where
  spawn_count : Nat
  success_count : Nat
  error_count : Nat
deriving Repr, DecidableEq

/-- `ConnectorMetrics::default()`. -/
def ConnectorMetrics.default : ConnectorMetrics :=
  { spawn_count := 0, success_count := 0, error_count := 0 }

/-- `update_metrics`: bump `spawn_count` on every attempt and exactly
one of `success_count`/`error_count`. -/
def updateMetrics (m : ConnectorMetrics) (success : Bool) : ConnectorMetrics :=
  if success then
    { m with spawn_count := m.spawn_count + 1, success_count := m.success_count + 1 }
  else
    { m with spawn_count := m.spawn_count + 1, error_count := m.error_count + 1 }

/-- Observable outcome of one `execute` call: whether it returned the
stream (`Ok(rx)`) or `MaxRetriesExceeded`, the final metrics and
health, and the sequence of backoff sleeps performed (in ms). -/
structure ConnectorRun where
  ok : Bool
  metrics : ConnectorMetrics
  health : ConnectorHealth
  backoffs : List Nat
deriving Repr, DecidableEq

/-- The `loop` in `execute`: attempt; on success update metrics
(success), mark Healthy and return the stream; on failure increment
`retries`, update metrics (failure), and if `retries ≥ max_retries`
mark Unhealthy with the last error and fail with MaxRetriesExceeded,
else sleep `100ms · 2^(retries−1)` and retry.  `d` is structural fuel
maintained at `≥ max_retries − retries`; the `d = 0` arm is unreachable
under that invariant and repeats the exhausted-retries result. -/
def connectorRetryAux (attempt : Nat → Option String) (maxRetries : Nat) :
    Nat → Nat → Nat → ConnectorMetrics → List Nat → ConnectorRun
  | d, retries, i, m, backoffs =>
    match attempt i with
    | none =>
      { ok := true, metrics := updateMetrics m true,
        health := .Healthy, backoffs := backoffs }
    | some e =>
      let retries' := retries + 1
      let m' := updateMetrics m false
      if maxRetries ≤ retries' then
        { ok := false, metrics := m',
          health := .Unhealthy ("Max retries exceeded: " ++ e),
          backoffs := backoffs }
      else
        match d with
        | 0 =>
          { ok := false, metrics := m',
            health := .Unhealthy ("Max retries exceeded: " ++ e),
            backoffs := backoffs }
        | d + 1 =>
          connectorRetryAux attempt maxRetries d retries' (i + 1) m'
            (backoffs ++ [100 * 2 ^ (retries' - 1)])

/-- `ClaudeCodeConnector::execute` (= `CodexCliConnector::execute`):
the retry loop entered with `retries = 0` on the connector's current
metrics. -/
def ClaudeCodeConnector.execute (attempt : Nat → Option String) (maxRetries : Nat)
    (m : ConnectorMetrics) : ConnectorRun :=
  connectorRetryAux attempt maxRetries maxRetries 0 0 m []

/-- Attempt oracle that fails twice ("boom") and succeeds on the third
attempt. -/
def c6Attempt : Nat → Option String :=
  fun i => if i = 2 then none else some "boom"

/-! ## Connectors: stdout line parsing
(src/src-tauri/src/connectors/codex_cli.rs `parse_output_line`,
`parse_openai_usage`, `parse_usage`; claude_code.rs
`parse_output_line`, `parse_usage`; connectors/types.rs
`ConnectorMessage`).  `serde_json` is modelled by a small JSON parser
covering the fragment the connector outputs use: objects, arrays,
strings with the common escapes, unsigned integers, booleans and
null. -/
/-- `ConnectorMessage` (connectors/types.rs), the internally tagged
(`type`, snake_case) serde enum. -/
inductive ConnectorMessage
  | Content (content : String)
  | ToolCall (name : String) (args : String)
  | Error (message : String)
  | Usage (input_tokens : Nat) (output_tokens : Nat)
  | Done
deriving Repr, DecidableEq

/-- JSON values (the fragment of `serde_json::Value` needed here). -/
inductive Jval
  | jstr (s : String)
  | jnum (n : Nat)
  | jbool (b : Bool)
  | jnull
  | jarr (xs : List Jval)
  | jobj (fields : List (String × Jval))

/-- JSON whitespace. -/
def jws (c : Char) : Bool :=
  c == ' ' || c == '\t' || c == '\n' || c == '\r'

/-- Drop leading JSON whitespace. -/
def skipWs : List Char → List Char
  | [] => []
  | c :: rest => if jws c then skipWs rest else c :: rest

/-- Body of a JSON string after the opening quote; `esc` is set after a
backslash.  Returns the string and the input following the closing
quote. -/
def parseJstrAux : List Char → Bool → List Char → Option (String × List Char)
  | [], _, _ => none
  | c :: rest, esc, acc =>
    if esc then
      if c = '"' then parseJstrAux rest false ('"' :: acc)
      else if c = '\\' then parseJstrAux rest false ('\\' :: acc)
      else if c = '/' then parseJstrAux rest false ('/' :: acc)
      else if c = 'n' then parseJstrAux rest false ('\n' :: acc)
      else if c = 't' then parseJstrAux rest false ('\t' :: acc)
      else if c = 'r' then parseJstrAux rest false ('\r' :: acc)
      else none
    else if c = '\\' then parseJstrAux rest true acc
    else if c = '"' then some (String.mk acc.reverse, rest)
    else parseJstrAux rest false (c :: acc)

/-- Longest digit run at the head of the input. -/
def parseDigits : List Char → List Char → List Char × List Char
  | [], acc => (acc.reverse, [])
  | c :: rest, acc =>
    if c.isDigit then parseDigits rest (c :: acc) else (acc.reverse, c :: rest)

/-- Numeric value of a digit run. -/
def digitsToNat : List Char → Nat → Nat
  | [], acc => acc
  | c :: rest, acc => digitsToNat rest (acc * 10 + (c.toNat - '0'.toNat))

/-- Comma-separated `"key": value` members of a JSON object, given a
value parser `pv`; `gas` bounds the member count. -/
def parseMembersWith (pv : List Char → Option (Jval × List Char)) :
    Nat → List Char → List (String × Jval) → Option (List (String × Jval) × List Char)
  | 0, _, _ => none
  | gas + 1, cs, acc =>
    match skipWs cs with
    | '}' :: rest => some (acc.reverse, rest)
    | '"' :: rest =>
      match parseJstrAux rest false [] with
      | none => none
      | some (key, rest2) =>
        match skipWs rest2 with
        | ':' :: rest3 =>
          match pv rest3 with
          | none => none
          | some (v, rest4) =>
            match skipWs rest4 with
            | ',' :: rest5 => parseMembersWith pv gas rest5 ((key, v) :: acc)
            | '}' :: rest5 => some (((key, v) :: acc).reverse, rest5)
            | _ => none
        | _ => none
    | _ => none

/-- Comma-separated items of a JSON array, given a value parser. -/
def parseItemsWith (pv : List Char → Option (Jval × List Char)) :
    Nat → List Char → List Jval → Option (List Jval × List Char)
  | 0, _, _ => none
  | gas + 1, cs, acc =>
    match skipWs cs with
    | ']' :: rest => some (acc.reverse, rest)
    | cs' =>
      match pv cs' with
      | none => none
      | some (v, rest) =>
        match skipWs rest with
        | ',' :: rest2 => parseItemsWith pv gas rest2 (v :: acc)
        | ']' :: rest2 => some ((v :: acc).reverse, rest2)
        | _ => none

/-- JSON value parser; `fuel` bounds the nesting depth. -/
def parseJval : Nat → List Char → Option (Jval × List Char)
  | 0, _ => none
  | fuel + 1, cs =>
    match skipWs cs with
    | [] => none
    | c :: rest =>
      if c = '"' then
        match parseJstrAux rest false [] with
        | some (s, rest2) => some (.jstr s, rest2)
        | none => none
      else if c = '{' then
        match parseMembersWith (parseJval fuel) (rest.length + 1) rest [] with
        | some (fields, rest2) => some (.jobj fields, rest2)
        | none => none
      else if c = '[' then
        match parseItemsWith (parseJval fuel) (rest.length + 1) rest [] with
        | some (items, rest2) => some (.jarr items, rest2)
        | none => none
      else if c.isDigit then
        match parseDigits (c :: rest) [] with
        | (ds, rest2) => some (.jnum (digitsToNat ds 0), rest2)
      else if c = 't' then
        match rest with
        | 'r' :: 'u' :: 'e' :: rest2 => some (.jbool true, rest2)
        | _ => none
      else if c = 'f' then
        match rest with
        | 'a' :: 'l' :: 's' :: 'e' :: rest2 => some (.jbool false, rest2)
        | _ => none
      else if c = 'n' then
        match rest with
        | 'u' :: 'l' :: 'l' :: rest2 => some (.jnull, rest2)
        | _ => none
      else none

/-- `serde_json::from_str::<Value>`: parse the whole line (trailing
whitespace allowed). -/
def parseJson (s : String) : Option Jval :=
  match parseJval (s.data.length + 1) s.data with
  | some (v, rest) => if (skipWs rest).isEmpty then some v else none
  | none => none

/-- Field lookup in a parsed object (`Value::get`). -/
def jlookup : List (String × Jval) → String → Option Jval
  | [], _ => none
  | (k, v) :: rest, key => if k = key then some v else jlookup rest key

/-- serde deserialization of the internally tagged `ConnectorMessage`
(`#[serde(tag = "type", rename_all = "snake_case")]`). -/
def connectorMessageOfJson : Jval → Option ConnectorMessage
  | .jobj fields =>
    match jlookup fields "type" with
    | some (.jstr "content") =>
      match jlookup fields "content" with
      | some (.jstr c) => some (.Content c)
      | _ => none
    | some (.jstr "tool_call") =>
      match jlookup fields "name", jlookup fields "args" with
      | some (.jstr n), some (.jstr a) => some (.ToolCall n a)
      | _, _ => none
    | some (.jstr "error") =>
      match jlookup fields "message" with
      | some (.jstr m) => some (.Error m)
      | _ => none
    | some (.jstr "usage") =>
      match jlookup fields "input_tokens", jlookup fields "output_tokens" with
      | some (.jnum i), some (.jnum o) => some (.Usage i o)
      | _, _ => none
    | some (.jstr "done") => some .Done
    | _ => none
  | _ => none

/-- `serde_json::from_str::<ConnectorMessage>`. -/
def connectorMessageFromStr (line : String) : Option ConnectorMessage :=
  (parseJson line).bind connectorMessageOfJson

/-- The split pattern `[',', ' ', ':']` used by `parse_usage`. -/
def isDelim (c : Char) : Bool :=
  c == ',' || c == ' ' || c == ':'

/-- `str::split(&[',', ' ', ':'])`: split at every delimiter, keeping
empty segments between adjacent delimiters and at either end. -/
def splitAux : List Char → List Char → List String
  | [], acc => [String.mk acc.reverse]
  | c :: rest, acc =>
    if isDelim c then String.mk acc.reverse :: splitAux rest []
    else splitAux rest (c :: acc)

/-- Split a line on the `parse_usage` delimiters. -/
def splitDelims (s : String) : List String := splitAux s.data []

/-- Substring occurrence (`str::contains` with a string pattern). -/
def subOccurs : List Char → List Char → Bool
  | [], sub => sub.isEmpty
  | c :: rest, sub => List.isPrefixOf sub (c :: rest) || subOccurs rest sub

/-- `haystack.contains(needle)`. -/
def containsSub (s sub : String) : Bool := subOccurs s.data sub.data

/-- `next.parse::<u64>()`: succeeds on a non-empty all-digit segment
(`String.toNat?`), fails on anything else — in particular on the empty
segments the split produces between a delimiter pair such as `": "`. -/
def parseU64 (s : String) : Option Nat := s.toNat?

/-- The keyword scan of `CodexCliConnector::parse_usage`: for each
part, if it contains "input"/"prompt" (resp. "output"/"completion"),
try to parse the NEXT part as a number and overwrite the corresponding
counter. -/
def codexScanUsage : List String → Nat → Nat → Nat × Nat
  | [], iTok, oTok => (iTok, oTok)
  | p :: rest, iTok, oTok =>
    if containsSub p "input" || containsSub p "prompt" then
      match rest with
      | [] => codexScanUsage rest iTok oTok
      | nxt :: _ =>
        match parseU64 nxt with
        | some n => codexScanUsage rest n oTok
        | none => codexScanUsage rest iTok oTok
    else if containsSub p "output" || containsSub p "completion" then
      match rest with
      | [] => codexScanUsage rest iTok oTok
      | nxt :: _ =>
        match parseU64 nxt with
        | some n => codexScanUsage rest iTok n
        | none => codexScanUsage rest iTok oTok
    else codexScanUsage rest iTok oTok

/-- `CodexCliConnector::parse_usage`. -/
def codexParseUsage (line : String) : Option ConnectorMessage :=
  let parts := splitDelims line
  let r := codexScanUsage parts 0 0
  if r.1 > 0 || r.2 > 0 then some (.Usage r.1 r.2) else none

/-- The keyword scan of `ClaudeCodeConnector::parse_usage`: identical
except that only "input" and "output" are recognised. -/
def claudeScanUsage : List String → Nat → Nat → Nat × Nat
  | [], iTok, oTok => (iTok, oTok)
  | p :: rest, iTok, oTok =>
    if containsSub p "input" then
      match rest with
      | [] => claudeScanUsage rest iTok oTok
      | nxt :: _ =>
        match parseU64 nxt with
        | some n => claudeScanUsage rest n oTok
        | none => claudeScanUsage rest iTok oTok
    else if containsSub p "output" then
      match rest with
      | [] => claudeScanUsage rest iTok oTok
      | nxt :: _ =>
        match parseU64 nxt with
        | some n => claudeScanUsage rest iTok n
        | none => claudeScanUsage rest iTok oTok
    else claudeScanUsage rest iTok oTok

/-- `ClaudeCodeConnector::parse_usage`. -/
def claudeParseUsage (line : String) : Option ConnectorMessage :=
  let parts := splitDelims line
  let r := claudeScanUsage parts 0 0
  if r.1 > 0 || r.2 > 0 then some (.Usage r.1 r.2) else none

/-- `CodexCliConnector::parse_openai_usage`: JSON `usage` object with
`prompt_tokens`/`completion_tokens` (`as_u64().unwrap_or(0)`). -/
def codexParseOpenaiUsage (line : String) : Option ConnectorMessage :=
  match parseJson line with
  | some (.jobj fields) =>
    match jlookup fields "usage" with
    | some (.jobj u) =>
      let pt := match jlookup u "prompt_tokens" with
        | some (.jnum n) => n
        | _ => 0
      let ct := match jlookup u "completion_tokens" with
        | some (.jnum n) => n
        | _ => 0
      if pt > 0 || ct > 0 then some (.Usage pt ct) else none
    | _ => none
  | _ => none

/-- `line.trim().is_empty()`. -/
def trimEmpty (s : String) : Bool := s.data.all (fun c => c.isWhitespace)

/-- `line.starts_with('/')`. -/
def startsWithSlash (s : String) : Bool :=
  match s.data with
  | '/' :: _ => true
  | _ => false

/-- `CodexCliConnector::parse_output_line`: JSON `ConnectorMessage`
first; then the OpenAI usage object when the line mentions `"usage"`
or `completion_tokens`; then the loose token scan when it mentions
`tokens`; otherwise non-empty non-`/` lines become `Content`. -/
def codexParseOutputLine (line : String) : Option ConnectorMessage :=
  match connectorMessageFromStr line with
  | some msg => some msg
  | none =>
    match (if containsSub line "\"usage\"" || containsSub line "completion_tokens"
           then codexParseOpenaiUsage line else none) with
    | some usage => some usage
    | none =>
      match (if containsSub line "tokens" then codexParseUsage line else none) with
      | some usage => some usage
      | none =>
        if !(trimEmpty line) && !(startsWithSlash line) then
          some (.Content line)
        else none

/-- `ClaudeCodeConnector::parse_output_line`: JSON first; the loose
scan when the line mentions `tokens` or `usage`; otherwise non-empty
lines become `Content` (claude_code has no `/` check). -/
def claudeParseOutputLine (line : String) : Option ConnectorMessage :=
  match connectorMessageFromStr line with
  | some msg => some msg
  | none =>
    match (if containsSub line "tokens" || containsSub line "usage"
           then claudeParseUsage line else none) with
    | some usage => some usage
    | none =>
      if !(trimEmpty line) then some (.Content line) else none

/-- Events a codex-cli run emits for a given stdout (stderr empty):
each line's parse result in order (`stream_output`), then the `Done`
that `try_execute` unconditionally appends. -/
def codexEmittedEvents (lines : List String) : List ConnectorMessage :=
  lines.filterMap codexParseOutputLine ++ [.Done]

/-! ## Theorems -/

theorem sumTokens_nil : sumTokens [] = 0 := rfl

theorem sumTokens_cons (e : MemoryEntry) (l : List MemoryEntry) :
    sumTokens (e :: l) = e.token_count + sumTokens l := by
  simp [sumTokens]

theorem sumTokens_append (l₁ l₂ : List MemoryEntry) :
    sumTokens (l₁ ++ l₂) = sumTokens l₁ + sumTokens l₂ := by
  simp [sumTokens]

theorem evictOldest_spec (cap : Nat) :
    ∀ (l : List MemoryEntry) (total ev : Nat), total = sumTokens l →
      (evictOldest cap l total ev).2.1 = sumTokens (evictOldest cap l total ev).1 ∧
      (evictOldest cap l total ev).2.1 ≤ cap := by
  intro l
  induction l with
  | nil =>
    intro total ev h
    simp [sumTokens] at h
    simp [evictOldest, h, sumTokens]
  | cons e rest ih =>
    intro total ev h
    rw [sumTokens_cons] at h
    by_cases hc : cap < total
    · simpa [evictOldest, hc] using ih (total - e.token_count) (ev + 1) (by omega)
    · constructor
      · simpa [evictOldest, hc, sumTokens_cons] using h
      · simpa [evictOldest, hc] using Nat.le_of_not_lt hc

theorem evictOldest_oversized (cap : Nat) (e : MemoryEntry) (he : cap < e.token_count) :
    ∀ (l : List MemoryEntry) (ev : Nat),
      evictOldest cap (l ++ [e]) (sumTokens (l ++ [e])) ev = ([], 0, ev + l.length + 1) := by
  intro l
  induction l with
  | nil =>
    intro ev
    have h1 : sumTokens [e] = e.token_count := by simp [sumTokens]
    rw [List.nil_append, h1]
    rw [evictOldest]
    simp only [he, if_true]
    simp [evictOldest]
  | cons a l ih =>
    intro ev
    have hge : e.token_count ≤ sumTokens (l ++ [e]) := by
      rw [sumTokens_append]; simp [sumTokens]
    have hgt : cap < sumTokens ((a :: l) ++ [e]) := by
      rw [List.cons_append, sumTokens_cons]; omega
    have hsub : sumTokens ((a :: l) ++ [e]) - a.token_count = sumTokens (l ++ [e]) := by
      rw [List.cons_append, sumTokens_cons]; omega
    rw [List.cons_append, evictOldest]
    simp only [← List.cons_append, hgt, if_true]
    rw [hsub, ih (ev + 1)]
    simp; omega

theorem minByLastAccessed_mem :
    ∀ (l : List BlackboardEntry) (m : BlackboardEntry),
      minByLastAccessed l = some m → m ∈ l := by
  intro l
  induction l with
  | nil => intro m h; simp [minByLastAccessed] at h
  | cons e rest ih =>
    intro m h
    rw [minByLastAccessed] at h
    cases hr : minByLastAccessed rest with
    | none => rw [hr] at h; simp at h; simp [h]
    | some m' =>
      rw [hr] at h
      by_cases hc : m'.last_accessed < e.last_accessed
      · simp [hc] at h; subst h; exact List.mem_cons_of_mem _ (ih m' hr)
      · simp [hc] at h; simp [h]

theorem removeKey_length_of_mem :
    ∀ (l : List BlackboardEntry) (m : BlackboardEntry), m ∈ l →
      (removeKey m.key l).length + 1 = l.length := by
  intro l
  induction l with
  | nil => intro m h; simp at h
  | cons e rest ih =>
    intro m h
    rw [removeKey]
    by_cases hk : e.key == m.key
    · simp [hk]
    · have hm : m ∈ rest := by
        rcases List.mem_cons.mp h with h1 | h1
        · subst h1; simp at hk
        · exact h1
      simp only [hk, Bool.false_eq_true, if_false, List.length_cons]
      rw [ih m hm]

theorem insertEntry_length_mem (e : BlackboardEntry) :
    ∀ l : List BlackboardEntry, hasKey l e.key = true →
      (insertEntry e l).length = l.length := by
  intro l
  induction l with
  | nil => intro h; simp [hasKey] at h
  | cons x rest ih =>
    intro h
    rw [insertEntry]
    by_cases hk : x.key == e.key
    · simp [hk]
    · have : hasKey rest e.key = true := by
        simp [hasKey] at h ⊢
        rcases h with h1 | h1
        · exact absurd (by simp [h1]) hk
        · exact h1
      simp only [hk, Bool.false_eq_true, if_false, List.length_cons]
      rw [ih this]

theorem insertEntry_length_new (e : BlackboardEntry) :
    ∀ l : List BlackboardEntry, hasKey l e.key = false →
      (insertEntry e l).length = l.length + 1 := by
  intro l
  induction l with
  | nil => intro _; simp [insertEntry]
  | cons x rest ih =>
    intro h
    simp [hasKey] at h
    rw [insertEntry]
    simp only [beq_iff_eq, h.1, if_false, List.length_cons]
    rw [ih (by simp [hasKey]; exact h.2)]

theorem popMax_eq_none : ∀ l : List AgentMessage, popMax l = none ↔ l = [] := by
  intro l
  cases l with
  | nil => simp [popMax]
  | cons m rest =>
    simp only [popMax]
    cases popMax rest with
    | none => simp
    | some p =>
      by_cases hc : m.priority.toNat < p.1.priority.toNat <;> simp [hc]

theorem popMax_max :
    ∀ (l rest : List AgentMessage) (m : AgentMessage), popMax l = some (m, rest) →
      ∀ x ∈ l, x.priority.toNat ≤ m.priority.toNat := by
  intro l
  induction l with
  | nil => intro rest m h; simp [popMax] at h
  | cons a t ih =>
    intro rest m h x hx
    rw [popMax] at h
    cases ht : popMax t with
    | none =>
      rw [ht] at h
      have ht' : t = [] := (popMax_eq_none t).mp ht
      subst ht'
      simp only [Option.some.injEq, Prod.mk.injEq] at h
      obtain ⟨h1, _⟩ := h
      subst h1
      have hxa : x = a := by simpa using hx
      subst hxa
      exact Nat.le_refl _
    | some p =>
      rw [ht] at h
      obtain ⟨m', rest'⟩ := p
      have hall : ∀ y ∈ t, y.priority.toNat ≤ m'.priority.toNat := ih rest' m' ht
      by_cases hc : a.priority.toNat < m'.priority.toNat
      · simp only [hc, if_true, Option.some.injEq, Prod.mk.injEq] at h
        obtain ⟨h1, _⟩ := h
        subst h1
        rcases List.mem_cons.mp hx with h1 | h1
        · subst h1; omega
        · exact hall x h1
      · simp only [hc, if_false, Option.some.injEq, Prod.mk.injEq] at h
        obtain ⟨h1, _⟩ := h
        subst h1
        rcases List.mem_cons.mp hx with h1 | h1
        · subst h1; exact Nat.le_refl _
        · have := hall x h1; omega

theorem popMax_perm :
    ∀ (l rest : List AgentMessage) (m : AgentMessage), popMax l = some (m, rest) →
      (m :: rest).Perm l := by
  intro l
  induction l with
  | nil => intro rest m h; simp [popMax] at h
  | cons a t ih =>
    intro rest m h
    rw [popMax] at h
    cases ht : popMax t with
    | none =>
      rw [ht] at h
      have ht' : t = [] := (popMax_eq_none t).mp ht
      subst ht'
      simp only [Option.some.injEq, Prod.mk.injEq] at h
      obtain ⟨h1, h2⟩ := h
      subst h1; subst h2
      exact List.Perm.refl _
    | some p =>
      rw [ht] at h
      obtain ⟨m', rest'⟩ := p
      have hperm : (m' :: rest').Perm t := ih rest' m' ht
      by_cases hc : a.priority.toNat < m'.priority.toNat
      · simp only [hc, if_true, Option.some.injEq, Prod.mk.injEq] at h
        obtain ⟨h1, h2⟩ := h
        rw [← h1, ← h2]
        exact (List.Perm.swap a m' rest').trans (List.Perm.cons a hperm)
      · simp only [hc, if_false, Option.some.injEq, Prod.mk.injEq] at h
        obtain ⟨h1, h2⟩ := h
        rw [← h1, ← h2]

/-- The loop returns within `max_iterations + 1` passes: every pass
that does not return increments the iteration counter, and a pass with
`max_iterations ≤ iterations` returns at its second check. -/
theorem orchLoop_isSome (env : OrchEnv) (guard : LoopGuard) :
    ∀ (fuel iterations : Nat) (st : OrchState),
      guard.max_iterations < iterations + (fuel + 1) →
      (orchLoop env guard (fuel + 1) iterations st).isSome := by
  intro fuel
  induction fuel with
  | zero =>
    intro iterations st h
    have hit : guard.max_iterations ≤ iterations := by omega
    rw [orchLoop]
    by_cases hs : env.stopSignal iterations
    · simp [hs]
    · simp only [hs, Bool.false_eq_true, if_false]
      split
      · simp
      · simp [hit]
  | succ fuel ih =>
    intro iterations st h
    rw [orchLoop]
    by_cases hs : env.stopSignal iterations
    · simp [hs]
    · simp only [hs, Bool.false_eq_true, if_true, if_false]
      split
      · simp
      · split
        · simp
        · split
          · simp
          · split
            · simp
            · split
              · simp
              · split
                · simp
                · exact ih (iterations + 1) _ (by omega)

theorem updateStatus_configs (st : OrchState) (id : AgentId) (s : AgentStatus) :
    (updateStatus st id s).configs = st.configs := rfl

theorem updateStatus_mailboxes (st : OrchState) (id : AgentId) (s : AgentStatus) :
    (updateStatus st id s).mailboxes = st.mailboxes := rfl

theorem updateStatus_metrics (st : OrchState) (id : AgentId) (s : AgentStatus) :
    (updateStatus st id s).metrics = st.metrics := rfl

theorem updateStatus_total_received (st : OrchState) (id : AgentId) (s : AgentStatus) :
    (updateStatus st id s).total_received = st.total_received := rfl

theorem updateStatus_execCursor (st : OrchState) (id : AgentId) (s : AgentStatus) :
    (updateStatus st id s).execCursor = st.execCursor := rfl

theorem updateStatus_status (st : OrchState) (id : AgentId) (s : AgentStatus) :
    ∀ a ∈ (updateStatus st id s).agents, a.id = id → a.status = s := by
  intro a ha hid
  rw [updateStatus] at ha
  simp only [List.mem_map] at ha
  obtain ⟨b, _, hb⟩ := ha
  by_cases hbid : b.id = id
  · simp only [hbid, if_true] at hb
    rw [← hb]
  · simp only [hbid, if_false] at hb
    rw [← hb] at hid
    exact absurd hid hbid

theorem alookup_aupdate {α : Type} :
    ∀ (l : List (AgentId × α)) (id : AgentId) (v : α),
      alookup (aupdate l id v) id = some v := by
  intro l
  induction l with
  | nil => intro id v; simp [aupdate, alookup]
  | cons p rest ih =>
    intro id v
    obtain ⟨k, x⟩ := p
    rw [aupdate]
    by_cases hk : k = id
    · simp [alookup, hk]
    · simp only [hk, if_false]
      rw [alookup]
      simp only [hk, if_false]
      exact ih id v

theorem alookup_bumpCount :
    ∀ (l : List (AgentId × Nat)) (id : AgentId),
      (alookup (bumpCount l id) id).getD 0 = (alookup l id).getD 0 + 1 := by
  intro l
  induction l with
  | nil => intro id; simp [bumpCount, alookup]
  | cons p rest ih =>
    intro id
    obtain ⟨k, v⟩ := p
    rw [bumpCount]
    by_cases hk : k = id
    · simp [alookup, hk]
    · simp only [hk, if_false]
      rw [alookup, alookup]
      simp only [hk, if_false]
      exact ih id

/-- Effect summary of the retry loop: it touches only the oracle
cursor, `retry_count` and `error_count`; `error_count` grows by one
exactly on the error path. -/
theorem retryAux_spec (env : OrchEnv) (maxRetries : Nat) :
    ∀ (d retries : Nat) (st : OrchState),
      (retryAux env maxRetries d retries st).2.agents = st.agents ∧
      (retryAux env maxRetries d retries st).2.configs = st.configs ∧
      (retryAux env maxRetries d retries st).2.mailboxes = st.mailboxes ∧
      (retryAux env maxRetries d retries st).2.total_received = st.total_received ∧
      (retryAux env maxRetries d retries st).2.metrics.total_messages
        = st.metrics.total_messages ∧
      (retryAux env maxRetries d retries st).2.metrics.messages_per_agent
        = st.metrics.messages_per_agent ∧
      ((retryAux env maxRetries d retries st).1 = Except.ok () →
        (retryAux env maxRetries d retries st).2.metrics.error_count
          = st.metrics.error_count) ∧
      (∀ e, (retryAux env maxRetries d retries st).1 = Except.error e →
        (retryAux env maxRetries d retries st).2.metrics.error_count
          = st.metrics.error_count + 1) := by
  intro d
  induction d with
  | zero =>
    intro retries st
    rw [retryAux]
    by_cases hE : env.execOk st.execCursor
    · simp [hE]
    · by_cases hR : maxRetries ≤ retries + 1
      · simp [hE, hR]
      · simp [hE, hR]
  | succ d ih =>
    intro retries st
    rw [retryAux]
    by_cases hE : env.execOk st.execCursor
    · simp [hE]
    · by_cases hR : maxRetries ≤ retries + 1
      · simp [hE, hR]
      · simp only [hE, Bool.false_eq_true, if_false, hR]
        exact ih (retries + 1) _

/-- `executeWithRetry` effect summary, specializing `retryAux_spec` to
the entry point. -/
theorem executeWithRetry_spec (env : OrchEnv) (maxRetries : Nat) (st : OrchState) :
    (executeWithRetry env maxRetries st).2.agents = st.agents ∧
    (executeWithRetry env maxRetries st).2.configs = st.configs ∧
    (executeWithRetry env maxRetries st).2.mailboxes = st.mailboxes ∧
    (executeWithRetry env maxRetries st).2.total_received = st.total_received ∧
    (executeWithRetry env maxRetries st).2.metrics.total_messages
      = st.metrics.total_messages ∧
    (executeWithRetry env maxRetries st).2.metrics.messages_per_agent
      = st.metrics.messages_per_agent ∧
    ((executeWithRetry env maxRetries st).1 = Except.ok () →
      (executeWithRetry env maxRetries st).2.metrics.error_count
        = st.metrics.error_count) ∧
    (∀ e, (executeWithRetry env maxRetries st).1 = Except.error e →
      (executeWithRetry env maxRetries st).2.metrics.error_count
        = st.metrics.error_count + 1) :=
  retryAux_spec env maxRetries maxRetries 0 st

/-- Effect summary of the `afterRetry` tail: the accounting updates are
unconditional; only the status write depends on the result. -/
theorem afterRetry_spec (id : AgentId) (r : Except String Unit × OrchState) :
    (afterRetry id r).1 = some r.1 ∧
    (afterRetry id r).2.total_received = r.2.total_received + 1 ∧
    (afterRetry id r).2.metrics.total_messages = r.2.metrics.total_messages + 1 ∧
    (afterRetry id r).2.metrics.messages_per_agent
      = bumpCount r.2.metrics.messages_per_agent id ∧
    (afterRetry id r).2.metrics.error_count = r.2.metrics.error_count ∧
    (afterRetry id r).2.mailboxes = r.2.mailboxes ∧
    (r.1 = Except.ok () →
      ∀ a ∈ (afterRetry id r).2.agents, a.id = id → a.status = .Idle) ∧
    (∀ e, r.1 = Except.error e →
      ∀ a ∈ (afterRetry id r).2.agents, a.id = id →
        a.status = .Failed "Processing failed") := by
  obtain ⟨res, st⟩ := r
  cases res with
  | ok u =>
    refine ⟨rfl, rfl, rfl, rfl, rfl, rfl, ?_, ?_⟩
    · intro _ a ha hid
      exact updateStatus_status st id .Idle a ha hid
    · intro e he
      simp at he
  | error e =>
    refine ⟨rfl, rfl, rfl, rfl, rfl, rfl, ?_, ?_⟩
    · intro hok
      simp at hok
    · intro e' _ a ha hid
      exact updateStatus_status st id (.Failed "Processing failed") a ha hid

/-! ## Claim theorems: orchestrator -/
/-- C2: for every loop-guard configuration, every initial state and
every oracle (covering all stop signals, clock readings and execution
outcomes — in particular every sequence of sends), `Orchestrator.start`
returns within `max_iterations + 1` loop passes with one of exactly the
six stop reasons; it never exhausts its fuel, i.e. never loops
forever. -/
theorem orchestrator_start_terminates (env : OrchEnv) (guard : LoopGuard) (st : OrchState) :
    ∃ (r : StopReason) (st' : OrchState),
      Orchestrator.start env guard st = some (r, st') ∧
      (r = .Completed ∨ r = .MaxIterations ∨
       (∃ id c, r = .MaxMessagesPerAgent id c) ∨ r = .MaxExecutionTime ∨
       (∃ id e, r = .AgentError id e) ∨ r = .ManualStop) := by
  have h := orchLoop_isSome env guard guard.max_iterations 0
    { st with running := true } (by omega)
  rw [Orchestrator.start]
  obtain ⟨p, hp⟩ := Option.isSome_iff_exists.mp h
  obtain ⟨r, st'⟩ := p
  refine ⟨r, st', hp, ?_⟩
  cases r with
  | Completed => exact Or.inl rfl
  | MaxIterations => exact Or.inr (Or.inl rfl)
  | MaxMessagesPerAgent id c => exact Or.inr (Or.inr (Or.inl ⟨id, c, rfl⟩))
  | MaxExecutionTime => exact Or.inr (Or.inr (Or.inr (Or.inl rfl)))
  | AgentError id e => exact Or.inr (Or.inr (Or.inr (Or.inr (Or.inl ⟨id, e, rfl⟩))))
  | ManualStop => exact Or.inr (Or.inr (Or.inr (Or.inr (Or.inr rfl))))

/-- C1 (amended): when `process_agent_message` processes a popped
message, then on success the status is set to Idle and on a terminal
retry failure `error_count` is incremented and the status set to
Failed; in BOTH cases `mark_received` is called and
`messages_per_agent[id]` and `total_messages` are incremented — the
accounting runs unconditionally after the retry wrapper, on the failure
path as well. -/
theorem orchestrator_message_accounting (env : OrchEnv) (st : OrchState) (id : AgentId)
    (res : Except String Unit) (h : (processAgentMessage env st id).1 = some res) :
    (processAgentMessage env st id).2.total_received = st.total_received + 1 ∧
    (processAgentMessage env st id).2.metrics.total_messages
      = st.metrics.total_messages + 1 ∧
    (alookup (processAgentMessage env st id).2.metrics.messages_per_agent id).getD 0
      = (alookup st.metrics.messages_per_agent id).getD 0 + 1 ∧
    (res = Except.ok () →
      (processAgentMessage env st id).2.metrics.error_count = st.metrics.error_count ∧
      ∀ a ∈ (processAgentMessage env st id).2.agents, a.id = id → a.status = .Idle) ∧
    (∀ e, res = Except.error e →
      (processAgentMessage env st id).2.metrics.error_count
        = st.metrics.error_count + 1 ∧
      ∀ a ∈ (processAgentMessage env st id).2.agents, a.id = id →
        a.status = .Failed "Processing failed") := by
  cases hm : alookup st.mailboxes id with
  | none =>
    simp only [processAgentMessage, hm] at h
    simp at h
  | some box =>
    cases hp : popMax box with
    | none =>
      simp only [processAgentMessage, hm, hp] at h
      simp at h
    | some pr =>
      obtain ⟨msg, rest⟩ := pr
      cases hc : alookup st.configs id with
      | none =>
        simp only [processAgentMessage, hm, hp, updateStatus_configs, hc] at h
        simp at h
      | some cfg =>
        have heq : processAgentMessage env st id
            = afterRetry id (executeWithRetry env cfg.max_retries
                (updateStatus { st with mailboxes := aupdate st.mailboxes id rest }
                  id .Processing)) := by
          simp only [processAgentMessage, hm, hp, updateStatus_configs, hc]
        rw [heq] at h ⊢
        obtain ⟨a1, a2, a3, a4, a5, a6, a7, a8⟩ :=
          afterRetry_spec id (executeWithRetry env cfg.max_retries
            (updateStatus { st with mailboxes := aupdate st.mailboxes id rest }
              id .Processing))
        obtain ⟨r1, r2, r3, r4, r5, r6, r7, r8⟩ :=
          executeWithRetry_spec env cfg.max_retries
            (updateStatus { st with mailboxes := aupdate st.mailboxes id rest }
              id .Processing)
        rw [a1] at h
        have hres : (executeWithRetry env cfg.max_retries
            (updateStatus { st with mailboxes := aupdate st.mailboxes id rest }
              id .Processing)).1 = res := by
          exact Option.some.inj h
        refine ⟨?_, ?_, ?_, ?_, ?_⟩
        · rw [a2, r4, updateStatus_total_received]
        · rw [a3, r5, updateStatus_metrics]
        · rw [a4, r6, updateStatus_metrics, alookup_bumpCount]
        · intro hok
          refine ⟨?_, a7 (by rw [hres, hok])⟩
          rw [a5, r7 (by rw [hres, hok]), updateStatus_metrics]
        · intro e herr
          refine ⟨?_, a8 e (by rw [hres, herr])⟩
          rw [a5, r8 e (by rw [hres, herr]), updateStatus_metrics]

/-- C1 counterexample to the claim as stated: with one queued message,
`max_retries = 1` and an always-failing executor, processing fails with
the terminal retry error — yet `mark_received` fired
(`total_received = 1`) and `messages_per_agent[0]` and `total_messages`
were incremented, the actions the claim says are not performed on
failure. -/
theorem orchestrator_failure_still_counts :
    (processAgentMessage c1Env c1St 0).1
      = some (Except.error ("Max retries exceeded: " ++ "Timeout")) ∧
    (processAgentMessage c1Env c1St 0).2.total_received = 1 ∧
    (processAgentMessage c1Env c1St 0).2.metrics.total_messages = 1 ∧
    alookup (processAgentMessage c1Env c1St 0).2.metrics.messages_per_agent 0 = some 1 ∧
    (processAgentMessage c1Env c1St 0).2.metrics.error_count = 1 :=
  ⟨rfl, rfl, rfl, rfl, rfl⟩

/-- C1 witness: the amended accounting theorem applied to the concrete
one-agent state with a succeeding executor. -/
theorem orchestrator_message_accounting_witness :
    (processAgentMessage c1EnvOk c1St 0).2.total_received = c1St.total_received + 1 ∧
    (processAgentMessage c1EnvOk c1St 0).2.metrics.total_messages
      = c1St.metrics.total_messages + 1 := by
  have h := orchestrator_message_accounting c1EnvOk c1St 0 (Except.ok ()) (by rfl)
  exact ⟨h.1, h.2.1⟩

/-- C9: when the mailbox yields a message but the registry has no
configuration for the agent, `process_agent_message` returns `None`
without executing: the popped message is gone from the mailbox, the
metrics (hence message and error counters) and `total_received`
(`mark_received`) are untouched, and the agent's status is left as
Processing. -/
theorem orphan_agent_message_dropped (env : OrchEnv) (st : OrchState) (id : AgentId)
    (box : List AgentMessage) (msg : AgentMessage) (rest : List AgentMessage)
    (hm : alookup st.mailboxes id = some box)
    (hp : popMax box = some (msg, rest))
    (hc : alookup st.configs id = none) :
    (processAgentMessage env st id).1 = none ∧
    (processAgentMessage env st id).2.metrics = st.metrics ∧
    (processAgentMessage env st id).2.total_received = st.total_received ∧
    alookup (processAgentMessage env st id).2.mailboxes id = some rest ∧
    ∀ a ∈ (processAgentMessage env st id).2.agents, a.id = id →
      a.status = .Processing := by
  have heq : processAgentMessage env st id
      = (none, updateStatus { st with mailboxes := aupdate st.mailboxes id rest }
          id .Processing) := by
    simp only [processAgentMessage, hm, hp, updateStatus_configs, hc]
  rw [heq]
  refine ⟨rfl, rfl, rfl, ?_, ?_⟩
  · rw [updateStatus_mailboxes]
    exact alookup_aupdate st.mailboxes id rest
  · intro a ha hid
    exact updateStatus_status _ id .Processing a ha hid

/-- C9 witness: the orphan-agent theorem applied to the concrete state
whose agent 7 has a mailbox and a queued message but no registered
configuration. -/
theorem orphan_agent_message_dropped_witness :
    (processAgentMessage c1EnvOk c9St 7).1 = none ∧
    (processAgentMessage c1EnvOk c9St 7).2.metrics = c9St.metrics := by
  have h := orphan_agent_message_dropped c1EnvOk c9St 7
    [{ id := 2, fromAgent := 7, toAgent := 7, content := "orphan", priority := .High }]
    { id := 2, fromAgent := 7, toAgent := 7, content := "orphan", priority := .High }
    [] (by decide) (by decide) (by decide)
  exact ⟨h.1, h.2.1⟩

/-- C8 (amended): `start()` overwrites `running` with `true` without
consulting its prior value — its behaviour is identical whatever the
flag held — so nothing in the code refuses a second scheduling loop on
an instance whose loop is already running. -/
theorem start_ignores_running (env : OrchEnv) (guard : LoopGuard) (st : OrchState)
    (b : Bool) :
    Orchestrator.start env guard { st with running := b }
      = Orchestrator.start env guard st ∧
    ∃ r st', Orchestrator.start env guard { st with running := b } = some (r, st') := by
  constructor
  · rfl
  · have h := orchLoop_isSome env guard guard.max_iterations 0
      { st with running := true } (by omega)
    obtain ⟨p, hp⟩ := Option.isSome_iff_exists.mp h
    exact ⟨p.1, p.2, by rw [Orchestrator.start]; rw [← hp]⟩

/-- C8 counterexample to the claim as stated: on a state whose
`running` flag is already true — a loop in progress — a further
`start()` call still executes a full scheduling loop, processing the
queued message to completion rather than declining to run. -/
theorem start_runs_second_loop :
    c8St.running = true ∧
    (Orchestrator.start c1EnvOk c8Guard c8St).map
        (fun p => (p.1, p.2.metrics.total_messages))
      = some (.Completed, 1) := by
  decide

/-! ## Memory-claim helper lemmas and claim theorems -/
theorem touch_key (e : BlackboardEntry) (now : Nat) :
    (e.touch now).key = e.key := rfl

theorem minByLastAccessed_isSome :
    ∀ (x : BlackboardEntry) (rest : List BlackboardEntry),
      ∃ m, minByLastAccessed (x :: rest) = some m := by
  intro x rest
  rw [minByLastAccessed]
  cases minByLastAccessed rest with
  | none => exact ⟨x, rfl⟩
  | some m =>
    by_cases hc : m.last_accessed < x.last_accessed
    · exact ⟨m, by simp [hc]⟩
    · exact ⟨x, by simp [hc]⟩

theorem hasKey_removeKey (k k2 : String) :
    ∀ l : List BlackboardEntry, hasKey l k = false →
      hasKey (removeKey k2 l) k = false := by
  intro l
  induction l with
  | nil => intro h; simpa [removeKey] using h
  | cons e rest ih =>
    intro h
    simp only [hasKey, List.any_cons, Bool.or_eq_false_iff] at h
    rw [removeKey]
    by_cases hk : e.key == k2
    · simp only [hk, if_true]
      exact (by simpa [hasKey] using h.2)
    · simp only [hk, Bool.false_eq_true, if_false, hasKey, List.any_cons,
        Bool.or_eq_false_iff]
      exact ⟨h.1, by simpa [hasKey] using ih (by simpa [hasKey] using h.2)⟩

/-- C3 (amended): with the ring buffer's stats consistent (`Wf`, which
all mutations preserve), after `push` and after `clear` both halves of
the invariant hold — `total_tokens ≤ capacity` and `total_entries`
equals the container length; after `summarize` the length half holds
and `total_tokens` becomes exactly `summary_tokens`, which respects the
capacity only when `summary_tokens ≤ capacity` — `summarize` itself
performs no capacity check. -/
theorem ringBuffer_mutation_invariants (b : RingBuffer) (e : MemoryEntry)
    (s : String) (stoks : Nat) (hwf : b.Wf) :
    ((b.push e).Wf ∧ (b.push e).total_tokens ≤ b.capacity_tokens) ∧
    (b.clear.Wf ∧ b.clear.total_tokens ≤ b.capacity_tokens) ∧
    ((b.summarize s stoks).Wf ∧ (b.summarize s stoks).total_tokens = stoks ∧
      (stoks ≤ b.capacity_tokens →
        (b.summarize s stoks).total_tokens ≤ b.capacity_tokens)) := by
  have hsum : b.total_tokens + e.token_count = sumTokens (b.entries ++ [e]) := by
    rw [sumTokens_append, hwf.1]
    simp [sumTokens]
  have hspec := evictOldest_spec b.capacity_tokens (b.entries ++ [e])
    (b.total_tokens + e.token_count) b.eviction_count hsum
  refine ⟨⟨⟨?_, ?_⟩, ?_⟩, ⟨⟨?_, ?_⟩, ?_⟩, ⟨⟨?_, ?_⟩, ?_, ?_⟩⟩
  · exact hspec.1
  · rfl
  · exact hspec.2
  · simp [RingBuffer.clear, RingBuffer.Wf, sumTokens]
  · simp [RingBuffer.clear, RingBuffer.Wf]
  · simp [RingBuffer.clear]
  · simp [RingBuffer.summarize, RingBuffer.Wf, sumTokens]
  · simp [RingBuffer.summarize, RingBuffer.Wf]
  · rfl
  · intro hle
    simpa [RingBuffer.summarize] using hle

/-- C3 counterexample to the claim as stated: `summarize` with a
summary of 51 tokens on a capacity-50 buffer (a reachable, well-formed
state) leaves `total_tokens = 51 > 50 = capacity`, so the invariant
does not hold after every mutating operation. -/
theorem ringBuffer_summarize_exceeds_capacity :
    (RingBuffer.new 50).Wf ∧
    ((RingBuffer.new 50).summarize "s" 51).capacity_tokens = 50 ∧
    50 < ((RingBuffer.new 50).summarize "s" 51).total_tokens := by
  refine ⟨⟨rfl, rfl⟩, rfl, by decide⟩

/-- C3 witness: the mutation-invariant theorem applied to a concrete
capacity-10 buffer, a 4-token entry and a 2-token summary. -/
theorem ringBuffer_mutation_invariants_witness :
    (((RingBuffer.new 10).push { content := "x", token_count := 4 }).Wf ∧
      ((RingBuffer.new 10).push { content := "x", token_count := 4 }).total_tokens
        ≤ (RingBuffer.new 10).capacity_tokens) :=
  (ringBuffer_mutation_invariants (RingBuffer.new 10)
    { content := "x", token_count := 4 } "y" 2 ⟨rfl, rfl⟩).1

/-- C10: pushing an entry whose token count strictly exceeds the
capacity is accepted and then drains the buffer: the eviction loop
removes every older entry and finally the new entry itself, leaving the
buffer empty with `total_tokens = 0` and a strictly larger
`eviction_count`. -/
theorem ringBuffer_oversized_push (b : RingBuffer) (e : MemoryEntry)
    (hwf : b.Wf) (hbig : b.capacity_tokens < e.token_count) :
    (b.push e).entries = [] ∧ (b.push e).total_tokens = 0 ∧
    (b.push e).total_entries = 0 ∧
    b.eviction_count < (b.push e).eviction_count := by
  have hsum : b.total_tokens + e.token_count = sumTokens (b.entries ++ [e]) := by
    rw [sumTokens_append, hwf.1]
    simp [sumTokens]
  have hall := evictOldest_oversized b.capacity_tokens e hbig b.entries b.eviction_count
  rw [← hsum] at hall
  refine ⟨?_, ?_, ?_, ?_⟩
  · simp [RingBuffer.push, hall]
  · simp [RingBuffer.push, hall]
  · simp [RingBuffer.push, hall]
  · simp only [RingBuffer.push, hall]
    omega

/-- C10 witness: a 7-token entry pushed into a fresh capacity-5 buffer
leaves it empty with one eviction recorded. -/
theorem ringBuffer_oversized_push_witness :
    ((RingBuffer.new 5).push { content := "big", token_count := 7 }).entries = [] ∧
    ((RingBuffer.new 5).push { content := "big", token_count := 7 }).total_tokens = 0 ∧
    ((RingBuffer.new 5).push { content := "big", token_count := 7 }).total_entries = 0 ∧
    (RingBuffer.new 5).eviction_count
      < ((RingBuffer.new 5).push { content := "big", token_count := 7 }).eviction_count :=
  ringBuffer_oversized_push (RingBuffer.new 5) { content := "big", token_count := 7 }
    ⟨rfl, rfl⟩ (by decide)

/-- C4 (amended): `put` touches the entry, purges expired entries,
evicts the least-recently-used entry exactly when the key is new and
the purged store is at capacity, then inserts or replaces.  Whenever
`max_entries ≥ 1` and the store holds at most `max_entries` entries,
it still does after `put`, with `total_entries` tracking the length;
for `max_entries = 0` the bound fails (see the counterexample), which
is the only amendment. -/
theorem blackboard_put_bounded (bb : Blackboard) (now : Nat) (e : BlackboardEntry)
    (hle : bb.entries.length ≤ bb.max_entries) (hpos : 1 ≤ bb.max_entries) :
    (bb.put now e).entries.length ≤ bb.max_entries ∧
    (bb.put now e).total_entries = (bb.put now e).entries.length ∧
    (bb.put now e).max_entries = bb.max_entries ∧
    (hasKey (bb.entries.filter (fun x => ¬ x.isExpired now)) e.key = true ∨
        (bb.entries.filter (fun x => ¬ x.isExpired now)).length < bb.max_entries →
      (bb.put now e).eviction_count = bb.eviction_count) ∧
    (hasKey (bb.entries.filter (fun x => ¬ x.isExpired now)) e.key = false ∧
        bb.max_entries ≤ (bb.entries.filter (fun x => ¬ x.isExpired now)).length →
      (bb.put now e).eviction_count = bb.eviction_count + 1) := by
  have hkle : (bb.entries.filter (fun x => ¬ x.isExpired now)).length
      ≤ bb.entries.length := List.length_filter_le _ _
  have hkey : (e.touch now).key = e.key := rfl
  by_cases hK : hasKey (bb.entries.filter (fun x => ¬ x.isExpired now)) e.key = true
  · -- key survives the purge: replacement, no eviction
    have hcond : ¬ ((bb.cleanupExpired now).max_entries
        ≤ (bb.cleanupExpired now).entries.length ∧
        ¬ hasKey (bb.cleanupExpired now).entries (e.touch now).key = true) := by
      intro hc
      exact hc.2 (by simpa [Blackboard.cleanupExpired, hkey] using hK)
    have hput : bb.put now e = { bb.cleanupExpired now with
        entries := insertEntry (e.touch now) (bb.cleanupExpired now).entries,
        total_entries :=
          (insertEntry (e.touch now) (bb.cleanupExpired now).entries).length } := by
      rw [Blackboard.put, if_neg hcond]
    have hlen : (insertEntry (e.touch now) (bb.cleanupExpired now).entries).length
        = (bb.entries.filter (fun x => ¬ x.isExpired now)).length := by
      rw [insertEntry_length_mem (e.touch now) (bb.cleanupExpired now).entries
        (by simpa [Blackboard.cleanupExpired, hkey] using hK)]
      simp [Blackboard.cleanupExpired]
    refine ⟨?_, ?_, ?_, ?_, ?_⟩
    · rw [hput]
      simp only [hlen]
      omega
    · rw [hput]
    · rw [hput]; rfl
    · intro _
      rw [hput]; rfl
    · intro hcontra
      rw [hK] at hcontra
      simp at hcontra
  · -- key is new after the purge
    have hKf : hasKey (bb.entries.filter (fun x => ¬ x.isExpired now)) e.key = false := by
      simpa using hK
    by_cases hLen : bb.max_entries
        ≤ (bb.entries.filter (fun x => ¬ x.isExpired now)).length
    · -- at capacity: evict the LRU entry, then insert
      have hcond : (bb.cleanupExpired now).max_entries
          ≤ (bb.cleanupExpired now).entries.length ∧
          ¬ hasKey (bb.cleanupExpired now).entries (e.touch now).key = true := by
        refine ⟨by simpa [Blackboard.cleanupExpired] using hLen, ?_⟩
        simpa [Blackboard.cleanupExpired, hkey] using hK
      have hput : bb.put now e = { (bb.cleanupExpired now).evictLru with
          entries := insertEntry (e.touch now) ((bb.cleanupExpired now).evictLru).entries,
          total_entries :=
            (insertEntry (e.touch now)
              ((bb.cleanupExpired now).evictLru).entries).length } := by
        rw [Blackboard.put, if_pos hcond]
      obtain ⟨x, rest, hxr⟩ : ∃ x rest,
          bb.entries.filter (fun y => ¬ y.isExpired now) = x :: rest := by
        cases hkept : bb.entries.filter (fun y => ¬ y.isExpired now) with
        | nil => rw [hkept] at hLen; simp at hLen; omega
        | cons x rest => exact ⟨x, rest, rfl⟩
      obtain ⟨m, hmin⟩ := minByLastAccessed_isSome x rest
      have hm : m ∈ bb.entries.filter (fun y => ¬ y.isExpired now) := by
        rw [hxr]; exact minByLastAccessed_mem (x :: rest) m hmin
      have hevict : (bb.cleanupExpired now).evictLru = { bb.cleanupExpired now with
          entries := removeKey m.key (bb.entries.filter (fun y => ¬ y.isExpired now)),
          eviction_count := bb.eviction_count + 1,
          total_entries :=
            (removeKey m.key (bb.entries.filter (fun y => ¬ y.isExpired now))).length } := by
        rw [Blackboard.evictLru]
        have hsc : (bb.cleanupExpired now).entries
            = bb.entries.filter (fun y => ¬ y.isExpired now) := rfl
        rw [hsc, hxr, hmin, ← hxr]
        rfl
      have hremlen : (removeKey m.key
          (bb.entries.filter (fun y => ¬ y.isExpired now))).length + 1
          = (bb.entries.filter (fun y => ¬ y.isExpired now)).length :=
        removeKey_length_of_mem _ m hm
      have hinslen : (insertEntry (e.touch now)
          (removeKey m.key (bb.entries.filter (fun y => ¬ y.isExpired now)))).length
          = (removeKey m.key (bb.entries.filter (fun y => ¬ y.isExpired now))).length + 1 :=
        insertEntry_length_new (e.touch now) _
          (by rw [hkey]; exact hasKey_removeKey e.key m.key _ hKf)
      refine ⟨?_, ?_, ?_, ?_, ?_⟩
      · rw [hput, hevict]
        simp only []
        rw [hinslen, hremlen]
        omega
      · rw [hput]
      · rw [hput, hevict]; rfl
      · intro hcontra
        rcases hcontra with hcontra | hcontra
        · rw [hKf] at hcontra; simp at hcontra
        · omega
      · intro _
        rw [hput, hevict]
    · -- below capacity: plain insert, no eviction
      have hcond : ¬ ((bb.cleanupExpired now).max_entries
          ≤ (bb.cleanupExpired now).entries.length ∧
          ¬ hasKey (bb.cleanupExpired now).entries (e.touch now).key = true) := by
        intro hc
        exact hLen (by simpa [Blackboard.cleanupExpired] using hc.1)
      have hput : bb.put now e = { bb.cleanupExpired now with
          entries := insertEntry (e.touch now) (bb.cleanupExpired now).entries,
          total_entries :=
            (insertEntry (e.touch now) (bb.cleanupExpired now).entries).length } := by
        rw [Blackboard.put, if_neg hcond]
      have hinslen : (insertEntry (e.touch now) (bb.cleanupExpired now).entries).length
          = (bb.entries.filter (fun x => ¬ x.isExpired now)).length + 1 := by
        rw [insertEntry_length_new (e.touch now) (bb.cleanupExpired now).entries
          (by rw [hkey]; simpa [Blackboard.cleanupExpired] using hKf)]
        simp [Blackboard.cleanupExpired]
      refine ⟨?_, ?_, ?_, ?_, ?_⟩
      · rw [hput]
        simp only [hinslen]
        omega
      · rw [hput]
      · rw [hput]; rfl
      · intro _
        rw [hput]; rfl
      · intro hcontra
        omega

/-- C4 counterexample to the claim as stated: with `max_entries = 0`, a
`put` into the empty blackboard inserts the entry — `evict_lru` has
nothing to remove — leaving one entry, which exceeds `max_entries`. -/
theorem blackboard_put_zero_capacity :
    (Blackboard.new 0).max_entries = 0 ∧
    ((Blackboard.new 0).put 0
      { key := "k", value := "v", expires_at := none,
        last_accessed := 0, access_count := 0 }).entries.length = 1 := by
  exact ⟨rfl, rfl⟩

/-- C4 witness: the bounded-put theorem applied to a fresh blackboard
with `max_entries = 2`. -/
theorem blackboard_put_bounded_witness :
    ((Blackboard.new 2).put 5
      { key := "k", value := "v", expires_at := none,
        last_accessed := 0, access_count := 0 }).entries.length
      ≤ (Blackboard.new 2).max_entries ∧
    ((Blackboard.new 2).put 5
      { key := "k", value := "v", expires_at := none,
        last_accessed := 0, access_count := 0 }).total_entries
      = ((Blackboard.new 2).put 5
          { key := "k", value := "v", expires_at := none,
            last_accessed := 0, access_count := 0 }).entries.length := by
  have h := blackboard_put_bounded (Blackboard.new 2) 5
    { key := "k", value := "v", expires_at := none,
      last_accessed := 0, access_count := 0 } (by decide) (by decide)
  exact ⟨h.1, h.2.1⟩

/-- C5: on every mailbox state (hence on every state reachable by
pushes and pops), `pop` never returns a message of strictly lower
priority than one still queued; and concretely (scenario S1), pushing
Low, High, Normal and popping three times yields the High, Normal and
Low messages in that order. -/
theorem mailbox_priority_pop :
    (∀ (l rest : List AgentMessage) (m : AgentMessage), popMax l = some (m, rest) →
      ∀ x ∈ rest, ¬ (m.priority.toNat < x.priority.toNat)) ∧
    popMax (Mailbox.push (Mailbox.push (Mailbox.push [] s1Low) s1High) s1Normal)
      = some (s1High, [s1Low, s1Normal]) ∧
    popMax [s1Low, s1Normal] = some (s1Normal, [s1Low]) ∧
    popMax [s1Low] = some (s1Low, []) := by
  refine ⟨?_, by decide, by decide, by decide⟩
  intro l rest m h x hx
  have hmem : x ∈ l := (popMax_perm l rest m h).subset (List.mem_cons_of_mem m hx)
  have := popMax_max l rest m h x hmem
  omega

/-- C5 witness: the priority invariant applied to the concrete
two-message mailbox [Low, High], whose pop returns the High message. -/
theorem mailbox_priority_pop_witness :
    ¬ (s1High.priority.toNat < s1Low.priority.toNat) :=
  mailbox_priority_pop.1 [s1Low, s1High] [s1Low] s1High (by decide) s1Low (by decide)

theorem connAux_success (attempt : Nat → Option String) (maxRetries : Nat) :
    ∀ (j d retries i : Nat) (m : ConnectorMetrics) (backoffs : List Nat),
      maxRetries ≤ d + retries →
      (∀ k, k < j → (attempt (i + k)).isSome) →
      attempt (i + j) = none →
      (j = 0 ∨ retries + j < maxRetries) →
      connectorRetryAux attempt maxRetries d retries i m backoffs =
        { ok := true,
          metrics := { spawn_count := m.spawn_count + j + 1,
                       success_count := m.success_count + 1,
                       error_count := m.error_count + j },
          health := .Healthy,
          backoffs := backoffs
            ++ (List.range j).map (fun k => 100 * 2 ^ (retries + k)) } := by
  intro j
  induction j with
  | zero =>
    intro d retries i m backoffs hd hfail hsucc hbound
    rw [Nat.add_zero] at hsucc
    rw [connectorRetryAux, hsucc]
    simp [updateMetrics]
  | succ j ih =>
    intro d retries i m backoffs hd hfail hsucc hbound
    have h0 : (attempt (i + 0)).isSome := hfail 0 (by omega)
    rw [Nat.add_zero] at h0
    obtain ⟨e, he⟩ := Option.isSome_iff_exists.mp h0
    have hjlt : retries + (j + 1) < maxRetries := by
      rcases hbound with h | h
      · omega
      · exact h
    have hnr : ¬ maxRetries ≤ retries + 1 := by omega
    rw [connectorRetryAux, he]
    simp only [hnr, if_false]
    cases d with
    | zero => exfalso; omega
    | succ d =>
      dsimp only
      rw [ih d (retries + 1) (i + 1) (updateMetrics m false)
        (backoffs ++ [100 * 2 ^ (retries + 1 - 1)])
        (by omega)
        (fun k hk => by
          have := hfail (k + 1) (by omega)
          have harith : i + (k + 1) = i + 1 + k := by omega
          rw [harith] at this
          exact this)
        (by
          have harith : i + 1 + j = i + (j + 1) := by omega
          rw [harith, hsucc])
        (Or.inr (by omega))]
      simp only [updateMetrics, Bool.false_eq_true, if_false]
      congr 1
      · congr 1 <;> omega
      · rw [List.append_assoc, List.singleton_append,
          List.range_succ_eq_map, List.map_cons, List.map_map]
        congr 1
        congr 1
        apply List.map_congr_left
        intro k _
        simp only [Function.comp_apply]
        congr 1
        congr 1
        omega

theorem connAux_fail (attempt : Nat → Option String) (maxRetries : Nat)
    (hall : ∀ i, (attempt i).isSome) :
    ∀ (n d retries i : Nat) (m : ConnectorMetrics) (backoffs : List Nat),
      1 ≤ n → maxRetries = retries + n → maxRetries ≤ d + retries →
      connectorRetryAux attempt maxRetries d retries i m backoffs =
        { ok := false,
          metrics := { spawn_count := m.spawn_count + n,
                       success_count := m.success_count,
                       error_count := m.error_count + n },
          health := .Unhealthy ("Max retries exceeded: "
            ++ (attempt (i + (n - 1))).getD ""),
          backoffs := backoffs
            ++ (List.range (n - 1)).map (fun k => 100 * 2 ^ (retries + k)) } := by
  intro n
  induction n with
  | zero =>
    intro d retries i m backoffs h1 _ _
    exact absurd h1 (by omega)
  | succ n ih =>
    intro d retries i m backoffs _ h2 h3
    obtain ⟨e, he⟩ := Option.isSome_iff_exists.mp (hall i)
    rw [connectorRetryAux, he]
    by_cases hn : maxRetries ≤ retries + 1
    · have hn0 : n = 0 := by omega
      subst hn0
      simp only [hn, if_true]
      simp [updateMetrics, he]
    · have hnge : 1 ≤ n := by omega
      simp only [hn, if_false]
      cases d with
      | zero => exfalso; omega
      | succ d =>
        dsimp only
        rw [ih d (retries + 1) (i + 1) (updateMetrics m false)
          (backoffs ++ [100 * 2 ^ (retries + 1 - 1)]) hnge (by omega) (by omega)]
        obtain ⟨k, hk⟩ : ∃ k, n = k + 1 := ⟨n - 1, by omega⟩
        subst hk
        congr 1
        · simp only [updateMetrics, Bool.false_eq_true, if_false]
          congr 1 <;> omega
        · have hidx : i + 1 + (k + 1 - 1) = i + (k + 1 + 1 - 1) := by omega
          rw [hidx]
        · rw [List.append_assoc, List.singleton_append]
          have hr : k + 1 + 1 - 1 = (k + 1 - 1) + 1 := by omega
          rw [hr, List.range_succ_eq_map, List.map_cons, List.map_map]
          congr 1
          congr 1
          apply List.map_congr_left
          intro a _
          simp only [Function.comp_apply]
          congr 1
          congr 1
          omega

/-- C6: the connector retry loop.  A successful attempt (after `j`
failed ones, permitted whenever `j = 0` or `j < max_retries`) marks
the connector Healthy, counts one success and `j` errors over `j + 1`
spawns, and has slept exactly `100·2⁰, 100·2¹, …, 100·2^(j−1)` ms —
the deterministic sequence 100, 200, 400, … .  When every attempt
fails, the call performs `max 1 max_retries` attempts, marks the
connector Unhealthy with the last error and returns the
MaxRetriesExceeded failure, having slept `100·2^k` ms for
`k < max_retries − 1`. -/
theorem connector_retry_backoff (attempt : Nat → Option String) (maxRetries : Nat)
    (m : ConnectorMetrics) :
    (∀ j, (∀ k, k < j → (attempt k).isSome) → attempt j = none →
      (j = 0 ∨ j < maxRetries) →
      ClaudeCodeConnector.execute attempt maxRetries m =
        { ok := true,
          metrics := { spawn_count := m.spawn_count + j + 1,
                       success_count := m.success_count + 1,
                       error_count := m.error_count + j },
          health := .Healthy,
          backoffs := (List.range j).map (fun k => 100 * 2 ^ k) }) ∧
    ((∀ i, (attempt i).isSome) →
      ClaudeCodeConnector.execute attempt maxRetries m =
        { ok := false,
          metrics := { spawn_count := m.spawn_count + max 1 maxRetries,
                       success_count := m.success_count,
                       error_count := m.error_count + max 1 maxRetries },
          health := .Unhealthy ("Max retries exceeded: "
            ++ (attempt (max 1 maxRetries - 1)).getD ""),
          backoffs := (List.range (maxRetries - 1)).map (fun k => 100 * 2 ^ k) }) := by
  constructor
  · intro j hfail hsucc hbound
    rw [ClaudeCodeConnector.execute,
      connAux_success attempt maxRetries j maxRetries 0 0 m []
        (by omega)
        (fun k hk => by simpa using hfail k hk)
        (by simpa using hsucc)
        (by omega)]
    simp
  · intro hall
    cases maxRetries with
    | zero =>
      obtain ⟨e, he⟩ := Option.isSome_iff_exists.mp (hall 0)
      rw [ClaudeCodeConnector.execute, connectorRetryAux, he]
      simp [updateMetrics, he]
    | succ mr =>
      rw [ClaudeCodeConnector.execute,
        connAux_fail attempt (mr + 1) hall (mr + 1) (mr + 1) 0 0 m []
          (by omega) (by omega) (by omega)]
      have hmax : max 1 (mr + 1) = mr + 1 := by omega
      rw [hmax]
      simp

/-- C6 witness: with `max_retries = 3` and two failures before the
successful third attempt, `execute` returns the stream, counts 3
spawns, 1 success, 2 errors, ends Healthy, and slept exactly 100 ms
then 200 ms. -/
theorem connector_retry_backoff_witness :
    ClaudeCodeConnector.execute c6Attempt 3 ConnectorMetrics.default =
      { ok := true,
        metrics := { spawn_count := 3, success_count := 1, error_count := 2 },
        health := .Healthy, backoffs := [100, 200] } := by
  have h := (connector_retry_backoff c6Attempt 3 ConnectorMetrics.default).1 2
    (by decide) (by decide) (by decide)
  exact h.trans (by decide)

/-- C7: evaluation of the stdout parsers at the S7 inputs.  The JSON
line parses to `Content "hi"` and `goodbye` to `Content "goodbye"`,
but `parse_usage` on `prompt: 75 tokens, completion: 30 tokens`
returns `None` — splitting on `[',', ' ', ':']` puts an empty segment
right after each keyword (between `:` and the space), and
`"".parse::<u64>()` fails — so the line is emitted as `Content`, not
as `Usage(75, 30)` as the claim (and the repository's own unit tests
`test_parse_usage` in codex_cli.rs and claude_code.rs) require.  The
last two conjuncts evaluate the parsers at those unit tests' exact
inputs. -/
theorem connector_output_parsing_s7 :
    codexParseOutputLine "\x7b\"type\":\"content\",\"content\":\"hi\"\x7d"
      = some (.Content "hi") ∧
    codexParseUsage "prompt: 75 tokens, completion: 30 tokens" = none ∧
    codexParseOutputLine "prompt: 75 tokens, completion: 30 tokens"
      = some (.Content "prompt: 75 tokens, completion: 30 tokens") ∧
    codexParseOutputLine "goodbye" = some (.Content "goodbye") ∧
    codexEmittedEvents ["\x7b\"type\":\"content\",\"content\":\"hi\"\x7d",
        "prompt: 75 tokens, completion: 30 tokens", "goodbye"]
      = [.Content "hi", .Content "prompt: 75 tokens, completion: 30 tokens",
         .Content "goodbye", .Done] ∧
    codexParseUsage "prompt: 100 tokens, completion: 50 tokens" = none ∧
    claudeParseUsage "input: 100 tokens, output: 50 tokens" = none ∧
    claudeParseOutputLine "input: 100 tokens, output: 50 tokens"
      = some (.Content "input: 100 tokens, output: 50 tokens") :=
  ⟨rfl, rfl, rfl, rfl, rfl, rfl, rfl, rfl⟩

end SwarmSpec
